import Mathlib

/-!
# Verification of the smart-contract-analyzer core

Shallow embedding of the adaptive log-scanning engine, the retry wrapper,
the pool-resolution loops and the price computations of the repository,
together with theorems settling the specification claims about them.

Python integers are embedded as `Nat`/`Int` (they are unbounded), Python
float arithmetic on prices is embedded as exact rational arithmetic (`ℚ`);
`//` on non-negative ints is `Nat` division.  Fallible RPC calls are
embedded as `Except Unit` values supplied by an oracle; `async` scheduling
is irrelevant (single logical flow), so coroutines become plain functions.
-/

namespace SCA

/-! ## PriceCalculator

V2 price, from `src/analyzers/dex/base.py`, `get_pair_info`:
`price = (quote_reserve / (10 ** quote_decimals)) / (token_reserve / (10 ** token_decimals))`
(the same expression appears in `src/analyzers/pool.py` and
`src/analyzers/chain_detector.py`).  Python float division is embedded as
exact division in `ℚ`. -/

def v2_price (token_reserve quote_reserve token_decimals quote_decimals : ℕ) : ℚ :=
  ((quote_reserve : ℚ) / 10 ^ quote_decimals) / ((token_reserve : ℚ) / 10 ^ token_decimals)

/-- Modelled from the spec: `price = (reserveQuote / 10^decimalsQuote) / (reserveToken / 10^decimalsToken)` (§4.4). -/
def spec_v2_price (reserveToken reserveQuote decimalsToken decimalsQuote : ℕ) : ℚ :=
  ((reserveQuote : ℚ) / 10 ^ decimalsQuote) / ((reserveToken : ℚ) / 10 ^ decimalsToken)

/-! V3 price, from `src/analyzers/dex/v3.py`, `get_pool_info` (and
`src/analyzers/chain_detector.py`, `_get_v3_pool_info`):
`price = (sqrt_price_x96 ** 2) / (2 ** 192)`;
`adjusted_price = price * (10 ** token_decimals) / (10 ** quote_decimals)`. -/

def v3_adjusted_price (sqrt_price_x96 token_decimals quote_decimals : ℕ) : ℚ :=
  ((sqrt_price_x96 : ℚ) ^ 2 / 2 ^ 192) * 10 ^ token_decimals / 10 ^ quote_decimals

/-- Modelled from the spec: `rawPrice = sqrtPriceX96^2 / 2^192`;
`price = rawPrice * 10^decimalsToken / 10^decimalsQuote` (§4.4). -/
def spec_v3_price (sqrtPriceX96 decimalsToken decimalsQuote : ℕ) : ℚ :=
  ((sqrtPriceX96 : ℚ) ^ 2 / 2 ^ 192) * 10 ^ decimalsToken / 10 ^ decimalsQuote

/-! ## RetryPolicy

`src/utils/retry.py`, `async_retry(retries, delay, backoff)`:

```
current_delay = delay
for attempt in range(retries):
    try:
        return await func(*args, **kwargs)
    except exceptions as e:
        if attempt == retries - 1:
            raise
        print(...)
        await asyncio.sleep(current_delay)
        current_delay *= backoff
return await func(*args, **kwargs)
```

The wrapped coroutine is embedded as an oracle `outcomes : ℕ → Except Unit ℕ`
giving the result of its k-th invocation (0-indexed).  `retryAux` returns the
final result together with the number of invocations made and the list of
sleep durations, in order.  The trailing `return await func(...)` after the
loop sits outside the `try`, so for `retries = 0` the single call is
unprotected; for `retries ≥ 1` the loop always returns or raises, making the
trailing call unreachable. -/

def retryAux (outcomes : ℕ → Except Unit ℕ) (backoff : ℚ) :
    ℕ → ℕ → ℚ → Except Unit ℕ × ℕ × List ℚ
  | attempt, 0, _ => (outcomes attempt, 1, [])
  | attempt, rem + 1, d =>
    match outcomes attempt with
    | .ok v => (.ok v, 1, [])
    | .error e =>
      if rem = 0 then (.error e, 1, [])
      else
        ((retryAux outcomes backoff (attempt + 1) rem (d * backoff)).1,
         (retryAux outcomes backoff (attempt + 1) rem (d * backoff)).2.1 + 1,
         d :: (retryAux outcomes backoff (attempt + 1) rem (d * backoff)).2.2)

def async_retry (retries : ℕ) (delay backoff : ℚ) (outcomes : ℕ → Except Unit ℕ) :
    Except Unit ℕ × ℕ × List ℚ :=
  retryAux outcomes backoff 0 retries delay

end SCA

namespace SCA

theorem retry_sleep_cons (d backoff : ℚ) (m : ℕ) :
    (List.range (m + 1)).map (fun i => d * backoff ^ i) =
      d :: (List.range m).map (fun i => d * backoff * backoff ^ i) := by
  rw [List.range_succ_eq_map, List.map_cons, List.map_map]
  refine congrArg₂ _ (by simp) ?_
  refine List.map_congr_left (fun a _ => ?_)
  simp only [Function.comp_apply, Nat.succ_eq_add_one, pow_succ]
  ring

theorem retryAux_calls_pos (outcomes : ℕ → Except Unit ℕ) (backoff : ℚ) :
    ∀ rem attempt d, 1 ≤ (retryAux outcomes backoff attempt rem d).2.1 := by
  intro rem
  induction rem with
  | zero => intro _ _; simp [retryAux]
  | succ n ih =>
    intro attempt d
    rw [retryAux]
    cases outcomes attempt with
    | ok v => simp
    | error e =>
      by_cases hn : n = 0
      · simp [hn]
      · simp only [if_neg hn]
        exact Nat.succ_le_succ (Nat.zero_le _)

theorem retryAux_calls_le (outcomes : ℕ → Except Unit ℕ) (backoff : ℚ) :
    ∀ rem attempt d, 1 ≤ rem → (retryAux outcomes backoff attempt rem d).2.1 ≤ rem := by
  intro rem
  induction rem with
  | zero => intro _ _ h; omega
  | succ n ih =>
    intro attempt d _
    rw [retryAux]
    cases outcomes attempt with
    | ok v => simp
    | error e =>
      by_cases hn : n = 0
      · simp [hn]
      · simp only [if_neg hn]
        have := ih (attempt + 1) (d * backoff) (by omega)
        exact Nat.succ_le_succ this

theorem retryAux_all_fail (outcomes : ℕ → Except Unit ℕ) (backoff : ℚ) :
    ∀ rem attempt d, 1 ≤ rem → (∀ k, k < rem → (outcomes (attempt + k)).isOk = false) →
      retryAux outcomes backoff attempt rem d =
        (outcomes (attempt + (rem - 1)), rem,
          (List.range (rem - 1)).map (fun i => d * backoff ^ i)) := by
  intro rem
  induction rem with
  | zero => intro _ _ h; omega
  | succ n ih =>
    intro attempt d _ hfail
    rw [retryAux]
    have h0 := hfail 0 (by omega)
    simp only [Nat.add_zero] at h0
    cases hout : outcomes attempt with
    | ok v => rw [hout] at h0; simp [Except.isOk, Except.toBool] at h0
    | error e =>
      by_cases hn : n = 0
      · subst hn
        simp [hout]
      · obtain ⟨m, rfl⟩ : ∃ m, n = m + 1 := ⟨n - 1, by omega⟩
        simp only [if_neg hn]
        have hrec := ih (attempt + 1) (d * backoff) (by omega)
          (fun k hk => by
            have := hfail (k + 1) (by omega)
            simpa [Nat.add_assoc, Nat.add_comm 1 k] using this)
        rw [hrec]
        simp only [Nat.add_sub_cancel, retry_sleep_cons d backoff m]
        refine congrArg₂ _ (congrArg _ (by omega)) rfl

theorem retryAux_sleeps_shape (outcomes : ℕ → Except Unit ℕ) (backoff : ℚ) :
    ∀ rem attempt d,
      (retryAux outcomes backoff attempt rem d).2.2 =
        (List.range ((retryAux outcomes backoff attempt rem d).2.1 - 1)).map
          (fun i => d * backoff ^ i) := by
  intro rem
  induction rem with
  | zero => intro _ _; simp [retryAux]
  | succ n ih =>
    intro attempt d
    rw [retryAux]
    cases outcomes attempt with
    | ok v => simp
    | error e =>
      by_cases hn : n = 0
      · simp [hn]
      · simp only [if_neg hn]
        have hpos := retryAux_calls_pos outcomes backoff n (attempt + 1) (d * backoff)
        obtain ⟨m, hm⟩ :
            ∃ m, (retryAux outcomes backoff (attempt + 1) n (d * backoff)).2.1 = m + 1 :=
          ⟨(retryAux outcomes backoff (attempt + 1) n (d * backoff)).2.1 - 1, by omega⟩
        have hrec := ih (attempt + 1) (d * backoff)
        rw [hm] at hrec
        simp only [Nat.add_sub_cancel] at hrec
        simp only [hm, hrec, Nat.add_sub_cancel]
        exact (retry_sleep_cons d backoff m).symm

end SCA

namespace SCA

/-! ## LogScanner

`src/handlers/event_handler.py`, `get_events` (lines 204–262).  One loop
iteration (guarded by `while current_block < to_block`) is embedded as
`scanStep`; the per-call outcome of `web3.eth.get_logs` is supplied by a
schedule `sched : ℕ → ScanOutcome` (success, an error whose message contains
"limit exceeded", or any other error), and the chain tip read at line 218 by
`latest : ℕ → ℤ`.  The state carries the loop variables `current_block`,
`to_block` and `current_batch_size`, plus the list of successfully fetched
windows, the sleeps issued (`config.delay` after a success, 2 after a
rate-limit error, 1 after any other error), and whether the
`if current_block > end_block: break` at line 224 has fired. -/

inductive ScanOutcome where
  | success
  | rateLimit
  | otherError
deriving DecidableEq, Repr

structure ScanState where
  current : ℤ
  toBlock : ℤ
  batchSize : ℕ
  windows : List (ℤ × ℤ)
  sleeps : List ℚ
  done : Bool
deriving DecidableEq, Repr

/-- `end_block = min(current_block + current_batch_size - 1, to_block)`, then
clipped to the latest block (lines 215–220). -/
def clipEnd (latest : ℤ) (s : ScanState) : ℤ :=
  if latest < min (s.current + (s.batchSize : ℤ) - 1) s.toBlock then latest
  else min (s.current + (s.batchSize : ℤ) - 1) s.toBlock

/-- `to_block` after the re-resolution at line 221. -/
def clipTo (latest : ℤ) (s : ScanState) : ℤ :=
  if latest < min (s.current + (s.batchSize : ℤ) - 1) s.toBlock then latest
  else s.toBlock

def scanStep (cfgBatch initialBatch : ℕ) (cfgDelay : ℚ) (latest : ℤ)
    (out : ScanOutcome) (s : ScanState) : ScanState :=
  if clipEnd latest s < s.current then
    { s with toBlock := clipTo latest s, done := true }
  else
    match out with
    | .success =>
        { current := clipEnd latest s + 1, toBlock := clipTo latest s,
          batchSize := min initialBatch (s.batchSize * 2),
          windows := s.windows ++ [(s.current, clipEnd latest s)],
          sleeps := s.sleeps ++ [cfgDelay], done := false }
    | .rateLimit =>
        { s with toBlock := clipTo latest s,
                 batchSize := max (cfgBatch / 10) (s.batchSize / 2),
                 sleeps := s.sleeps ++ [2] }
    | .otherError =>
        { s with toBlock := clipTo latest s, sleeps := s.sleeps ++ [1] }

def scanInit (initialBatch : ℕ) (a b : ℤ) : ScanState :=
  ⟨a, b, initialBatch, [], [], false⟩

def scanRun (cfgBatch initialBatch : ℕ) (cfgDelay : ℚ) (latest : ℕ → ℤ)
    (sched : ℕ → ScanOutcome) (a b : ℤ) : ℕ → ScanState
  | 0 => scanInit initialBatch a b
  | n + 1 =>
    let s := scanRun cfgBatch initialBatch cfgDelay latest sched a b n
    if s.done = true ∨ s.toBlock ≤ s.current then s
    else scanStep cfgBatch initialBatch cfgDelay (latest n) (sched n) s

/-- The scan has left the `while current_block < to_block` loop. -/
def ScanState.finished (s : ScanState) : Prop :=
  s.done = true ∨ s.toBlock ≤ s.current

instance (s : ScanState) : Decidable s.finished := by
  unfold ScanState.finished; infer_instance

/-- How many of the successfully fetched windows contain block `k`. -/
def windowCount (ws : List (ℤ × ℤ)) (k : ℤ) : ℕ :=
  ws.countP (fun w => decide (w.1 ≤ k ∧ k ≤ w.2))

/-- `IsChain a ws c`: the windows `ws` are consecutive, non-empty, start at
`a` and end at `c - 1`. -/
inductive IsChain : ℤ → List (ℤ × ℤ) → ℤ → Prop
  | nil (a : ℤ) : IsChain a [] a
  | cons (a c e : ℤ) (ws : List (ℤ × ℤ)) (hle : a ≤ e) (h : IsChain (e + 1) ws c) :
      IsChain a ((a, e) :: ws) c

theorem IsChain.le {a c : ℤ} {ws : List (ℤ × ℤ)} (h : IsChain a ws c) : a ≤ c := by
  induction h with
  | nil => omega
  | cons a c e ws hle _ ih => omega

theorem IsChain.append {a c e : ℤ} {ws : List (ℤ × ℤ)} (h : IsChain a ws c) (hce : c ≤ e) :
    IsChain a (ws ++ [(c, e)]) (e + 1) := by
  induction h with
  | nil a => exact IsChain.cons a (e + 1) e [] hce (IsChain.nil (e + 1))
  | cons a c w ws hle _ ih => exact IsChain.cons a (e + 1) w _ hle (ih hce)

theorem IsChain.count {a c : ℤ} {ws : List (ℤ × ℤ)} (h : IsChain a ws c) (k : ℤ) :
    windowCount ws k = if a ≤ k ∧ k ≤ c - 1 then 1 else 0 := by
  induction h with
  | nil a =>
    simp only [windowCount, List.countP_nil]
    rw [if_neg (by omega)]
  | cons a c e ws hle hch ih =>
    have hc := hch.le
    simp only [windowCount] at *
    simp only [List.countP_cons, decide_eq_true_eq]
    rw [ih]
    split_ifs <;> omega

/-- When the chain tip is at or beyond `to_block`, the batch size is positive
and the loop guard holds, the clipping at lines 218–221 is inert and the break
at line 224 cannot fire. -/
theorem scan_clip (latest : ℤ) (s : ScanState) (hcur : s.current < s.toBlock)
    (hbs : 1 ≤ s.batchSize) (hlat : s.toBlock ≤ latest) :
    clipEnd latest s = min (s.current + (s.batchSize : ℤ) - 1) s.toBlock ∧
    s.current ≤ clipEnd latest s ∧ clipEnd latest s ≤ s.toBlock ∧
    clipTo latest s = s.toBlock := by
  have hbs' : (1 : ℤ) ≤ (s.batchSize : ℤ) := by exact_mod_cast hbs
  have hmin : min (s.current + (s.batchSize : ℤ) - 1) s.toBlock ≤ s.toBlock :=
    min_le_right _ _
  have hne : ¬ latest < min (s.current + (s.batchSize : ℤ) - 1) s.toBlock := by omega
  have hEnd : clipEnd latest s = min (s.current + (s.batchSize : ℤ) - 1) s.toBlock := by
    unfold clipEnd; rw [if_neg hne]
  have hTo : clipTo latest s = s.toBlock := by
    unfold clipTo; rw [if_neg hne]
  exact ⟨hEnd, by rw [hEnd]; omega, by rw [hEnd]; omega, hTo⟩

theorem scanStep_success (cfgBatch initialBatch : ℕ) (cfgDelay : ℚ) (latest : ℤ)
    (s : ScanState) (hcur : s.current < s.toBlock) (hbs : 1 ≤ s.batchSize)
    (hlat : s.toBlock ≤ latest) :
    scanStep cfgBatch initialBatch cfgDelay latest .success s =
      { current := clipEnd latest s + 1, toBlock := s.toBlock,
        batchSize := min initialBatch (s.batchSize * 2),
        windows := s.windows ++ [(s.current, clipEnd latest s)],
        sleeps := s.sleeps ++ [cfgDelay], done := false } := by
  obtain ⟨hEnd, hcl, hcu, hTo⟩ := scan_clip latest s hcur hbs hlat
  simp only [scanStep]
  rw [if_neg (by omega), hTo]

theorem scanStep_rateLimit (cfgBatch initialBatch : ℕ) (cfgDelay : ℚ) (latest : ℤ)
    (s : ScanState) (hcur : s.current < s.toBlock) (hbs : 1 ≤ s.batchSize)
    (hlat : s.toBlock ≤ latest) :
    scanStep cfgBatch initialBatch cfgDelay latest .rateLimit s =
      { s with batchSize := max (cfgBatch / 10) (s.batchSize / 2),
               sleeps := s.sleeps ++ [2] } := by
  obtain ⟨hEnd, hcl, hcu, hTo⟩ := scan_clip latest s hcur hbs hlat
  simp only [scanStep]
  rw [if_neg (by omega), hTo]

theorem scanStep_otherError (cfgBatch initialBatch : ℕ) (cfgDelay : ℚ) (latest : ℤ)
    (s : ScanState) (hcur : s.current < s.toBlock) (hbs : 1 ≤ s.batchSize)
    (hlat : s.toBlock ≤ latest) :
    scanStep cfgBatch initialBatch cfgDelay latest .otherError s =
      { s with sleeps := s.sleeps ++ [1] } := by
  obtain ⟨hEnd, hcl, hcu, hTo⟩ := scan_clip latest s hcur hbs hlat
  simp only [scanStep]
  rw [if_neg (by omega), hTo]

theorem scan_invariant (cfgBatch initialBatch : ℕ) (cfgDelay : ℚ) (latest : ℕ → ℤ)
    (sched : ℕ → ScanOutcome) (a b : ℤ) (Hab : a ≤ b)
    (Hlat : ∀ n, b ≤ latest n) (Hcfg : 10 ≤ cfgBatch) (Hinit : 1 ≤ initialBatch) (n : ℕ) :
    (scanRun cfgBatch initialBatch cfgDelay latest sched a b n).toBlock = b ∧
    (scanRun cfgBatch initialBatch cfgDelay latest sched a b n).done = false ∧
    a ≤ (scanRun cfgBatch initialBatch cfgDelay latest sched a b n).current ∧
    (scanRun cfgBatch initialBatch cfgDelay latest sched a b n).current ≤ b + 1 ∧
    1 ≤ (scanRun cfgBatch initialBatch cfgDelay latest sched a b n).batchSize ∧
    IsChain a (scanRun cfgBatch initialBatch cfgDelay latest sched a b n).windows
      (scanRun cfgBatch initialBatch cfgDelay latest sched a b n).current := by
  induction n with
  | zero =>
    refine ⟨rfl, rfl, le_refl a, ?_, Hinit, IsChain.nil a⟩
    show a ≤ b + 1
    omega
  | succ n ih =>
    obtain ⟨htb, hdone, hac, hcb, hbs, hch⟩ := ih
    simp only [scanRun]
    by_cases hfin : (scanRun cfgBatch initialBatch cfgDelay latest sched a b n).done = true ∨
        (scanRun cfgBatch initialBatch cfgDelay latest sched a b n).toBlock ≤
          (scanRun cfgBatch initialBatch cfgDelay latest sched a b n).current
    · rw [if_pos hfin]
      exact ⟨htb, hdone, hac, hcb, hbs, hch⟩
    · rw [if_neg hfin]
      push_neg at hfin
      obtain ⟨-, hlt⟩ := hfin
      have hlat' : (scanRun cfgBatch initialBatch cfgDelay latest sched a b n).toBlock ≤
          latest n := by rw [htb]; exact Hlat n
      obtain ⟨hEnd, hcl, hcu, hTo⟩ :=
        scan_clip (latest n) (scanRun cfgBatch initialBatch cfgDelay latest sched a b n)
          hlt hbs hlat'
      have hcub : clipEnd (latest n)
          (scanRun cfgBatch initialBatch cfgDelay latest sched a b n) ≤ b :=
        le_trans hcu (le_of_eq htb)
      cases hout : sched n with
      | success =>
        rw [scanStep_success cfgBatch initialBatch cfgDelay (latest n) _ hlt hbs hlat']
        refine ⟨htb, rfl, ?_, ?_, le_min Hinit (by omega), hch.append hcl⟩
        · show a ≤ clipEnd (latest n) (scanRun cfgBatch initialBatch cfgDelay latest sched a b n) + 1
          omega
        · show clipEnd (latest n) (scanRun cfgBatch initialBatch cfgDelay latest sched a b n) + 1 ≤ b + 1
          omega
      | rateLimit =>
        rw [scanStep_rateLimit cfgBatch initialBatch cfgDelay (latest n) _ hlt hbs hlat']
        refine ⟨htb, hdone, hac, hcb, ?_, hch⟩
        exact le_trans (by omega : 1 ≤ cfgBatch / 10) (Nat.le_max_left _ _)
      | otherError =>
        rw [scanStep_otherError cfgBatch initialBatch cfgDelay (latest n) _ hlt hbs hlat']
        exact ⟨htb, hdone, hac, hcb, hbs, hch⟩

theorem scan_mono (cfgBatch initialBatch : ℕ) (cfgDelay : ℚ) (latest : ℕ → ℤ)
    (sched : ℕ → ScanOutcome) (a b : ℤ) (Hab : a ≤ b)
    (Hlat : ∀ n, b ≤ latest n) (Hcfg : 10 ≤ cfgBatch) (Hinit : 1 ≤ initialBatch) (n : ℕ) :
    (scanRun cfgBatch initialBatch cfgDelay latest sched a b n).current ≤
      (scanRun cfgBatch initialBatch cfgDelay latest sched a b (n + 1)).current := by
  obtain ⟨htb, hdone, hac, hcb, hbs, hch⟩ :=
    scan_invariant cfgBatch initialBatch cfgDelay latest sched a b Hab Hlat Hcfg Hinit n
  conv_rhs => rw [scanRun]
  by_cases hfin : (scanRun cfgBatch initialBatch cfgDelay latest sched a b n).done = true ∨
      (scanRun cfgBatch initialBatch cfgDelay latest sched a b n).toBlock ≤
        (scanRun cfgBatch initialBatch cfgDelay latest sched a b n).current
  · simp only [if_pos hfin]
    exact le_rfl
  · simp only [if_neg hfin]
    push_neg at hfin
    obtain ⟨-, hlt⟩ := hfin
    have hlat' : (scanRun cfgBatch initialBatch cfgDelay latest sched a b n).toBlock ≤
        latest n := by rw [htb]; exact Hlat n
    obtain ⟨hEnd, hcl, hcu, hTo⟩ :=
      scan_clip (latest n) (scanRun cfgBatch initialBatch cfgDelay latest sched a b n)
        hlt hbs hlat'
    cases hout : sched n with
    | success =>
      rw [scanStep_success cfgBatch initialBatch cfgDelay (latest n) _ hlt hbs hlat']
      show (scanRun cfgBatch initialBatch cfgDelay latest sched a b n).current ≤ clipEnd (latest n) (scanRun cfgBatch initialBatch cfgDelay latest sched a b n) + 1
      omega
    | rateLimit =>
      rw [scanStep_rateLimit cfgBatch initialBatch cfgDelay (latest n) _ hlt hbs hlat']
    | otherError =>
      rw [scanStep_otherError cfgBatch initialBatch cfgDelay (latest n) _ hlt hbs hlat']

/-- Under an all-rate-limit schedule the cursor stays put and the batch size
follows `max(config.batch_size // 10, initial // 2^n)`. -/
theorem scan_rateLimit_run (cfgBatch initialBatch : ℕ) (cfgDelay : ℚ) (latest : ℕ → ℤ)
    (sched : ℕ → ScanOutcome) (a b : ℤ) (Hab : a < b)
    (Hlat : ∀ n, b ≤ latest n) (Hcfg : 10 ≤ cfgBatch) (Hinit : 1 ≤ initialBatch)
    (Hsched : ∀ n, sched n = .rateLimit) (n : ℕ) :
    (scanRun cfgBatch initialBatch cfgDelay latest sched a b n).current = a ∧
    (scanRun cfgBatch initialBatch cfgDelay latest sched a b n).batchSize =
      (if n = 0 then initialBatch else max (cfgBatch / 10) (initialBatch / 2 ^ n)) := by
  induction n with
  | zero => exact ⟨rfl, (if_pos rfl).symm⟩
  | succ n ih =>
    obtain ⟨hcur, hbsz⟩ := ih
    obtain ⟨htb, hdone, hac, hcb, hbs, hch⟩ :=
      scan_invariant cfgBatch initialBatch cfgDelay latest sched a b Hab.le Hlat Hcfg Hinit n
    have hnfin : ¬((scanRun cfgBatch initialBatch cfgDelay latest sched a b n).done = true ∨
        (scanRun cfgBatch initialBatch cfgDelay latest sched a b n).toBlock ≤
          (scanRun cfgBatch initialBatch cfgDelay latest sched a b n).current) := by
      rw [hdone, htb, hcur]
      push_neg
      exact ⟨Bool.false_ne_true, by omega⟩
    have hlt : (scanRun cfgBatch initialBatch cfgDelay latest sched a b n).current <
        (scanRun cfgBatch initialBatch cfgDelay latest sched a b n).toBlock := by
      rw [htb, hcur]; exact Hab
    have hlat' : (scanRun cfgBatch initialBatch cfgDelay latest sched a b n).toBlock ≤
        latest n := by rw [htb]; exact Hlat n
    simp only [scanRun]
    rw [if_neg hnfin, Hsched n,
      scanStep_rateLimit cfgBatch initialBatch cfgDelay (latest n) _ hlt hbs hlat']
    refine ⟨hcur, ?_⟩
    show max (cfgBatch / 10)
        ((scanRun cfgBatch initialBatch cfgDelay latest sched a b n).batchSize / 2) = _
    rw [hbsz, if_neg (Nat.succ_ne_zero n)]
    by_cases hn : n = 0
    · subst hn
      rw [if_pos rfl, pow_one]
    · rw [if_neg hn]
      have key : max (cfgBatch / 10) (max (cfgBatch / 10) (initialBatch / 2 ^ n) / 2) =
          max (cfgBatch / 10) (initialBatch / 2 ^ n / 2) := by omega
      rw [key, Nat.div_div_eq_div_mul, ← pow_succ]

/-- Under an all-other-error schedule the cursor stays put and the scan never
leaves the loop. -/
theorem scan_otherError_run (cfgBatch initialBatch : ℕ) (cfgDelay : ℚ) (latest : ℕ → ℤ)
    (sched : ℕ → ScanOutcome) (a b : ℤ) (Hab : a < b)
    (Hlat : ∀ n, b ≤ latest n) (Hcfg : 10 ≤ cfgBatch) (Hinit : 1 ≤ initialBatch)
    (Hsched : ∀ n, sched n = .otherError) (n : ℕ) :
    (scanRun cfgBatch initialBatch cfgDelay latest sched a b n).current = a ∧
    (scanRun cfgBatch initialBatch cfgDelay latest sched a b n).sleeps =
      List.replicate n (1 : ℚ) ∧
    ¬ (scanRun cfgBatch initialBatch cfgDelay latest sched a b n).finished := by
  induction n with
  | zero =>
    refine ⟨rfl, rfl, ?_⟩
    intro hfin
    rcases (hfin : _ ∨ _) with h | h
    · exact Bool.false_ne_true h
    · revert h
      show ¬ ((b : ℤ) ≤ a)
      omega
  | succ n ih =>
    obtain ⟨hcur, hslp, hnfin⟩ := ih
    obtain ⟨htb, hdone, hac, hcb, hbs, hch⟩ :=
      scan_invariant cfgBatch initialBatch cfgDelay latest sched a b Hab.le Hlat Hcfg Hinit n
    have hnfin' : ¬((scanRun cfgBatch initialBatch cfgDelay latest sched a b n).done = true ∨
        (scanRun cfgBatch initialBatch cfgDelay latest sched a b n).toBlock ≤
          (scanRun cfgBatch initialBatch cfgDelay latest sched a b n).current) := hnfin
    have hlt : (scanRun cfgBatch initialBatch cfgDelay latest sched a b n).current <
        (scanRun cfgBatch initialBatch cfgDelay latest sched a b n).toBlock := by
      rw [htb, hcur]; exact Hab
    have hlat' : (scanRun cfgBatch initialBatch cfgDelay latest sched a b n).toBlock ≤
        latest n := by rw [htb]; exact Hlat n
    simp only [scanRun]
    rw [if_neg hnfin', Hsched n,
      scanStep_otherError cfgBatch initialBatch cfgDelay (latest n) _ hlt hbs hlat']
    refine ⟨hcur, ?_, ?_⟩
    · show (scanRun cfgBatch initialBatch cfgDelay latest sched a b n).sleeps ++ [(1 : ℚ)] = _
      rw [hslp, List.replicate_succ' n (1 : ℚ)]
    · intro hfin
      rcases (hfin : _ ∨ _) with h | h
      · have h' : (scanRun cfgBatch initialBatch cfgDelay latest sched a b n).done = true := h
        rw [hdone] at h'
        exact Bool.false_ne_true h'
      · have h' : (scanRun cfgBatch initialBatch cfgDelay latest sched a b n).toBlock ≤
            (scanRun cfgBatch initialBatch cfgDelay latest sched a b n).current := h
        rw [htb, hcur] at h'
        omega

end SCA

/-- **C1 (amended).** For every scan of `[a, b]` with `a ≤ b`, a chain tip at
or beyond `b`, a positive initial batch size and a configured batch size of at
least 10 (so the shrink floor stays positive): the cursor `current_block`
never decreases; at every point of the scan every block is contained in at
most one successfully fetched window, and every block in a successful window
lies strictly below the cursor (so it is never revisited); and when the loop
has exited, every block of `[a, b - 1]` is covered by exactly one successful
window.  The final block `b` itself may never be fetched: the loop guard is
`current_block < to_block`, so the scan stops as soon as the cursor reaches
`b`, covering `b` only when the last window happens to straddle it. -/
theorem C1_scan_cursor_monotone_and_coverage (cfgBatch initialBatch : ℕ) (cfgDelay : ℚ)
    (latest : ℕ → ℤ) (sched : ℕ → SCA.ScanOutcome) (a b : ℤ) (Hab : a ≤ b)
    (Hlat : ∀ n, b ≤ latest n) (Hcfg : 10 ≤ cfgBatch) (Hinit : 1 ≤ initialBatch) :
    (∀ n, (SCA.scanRun cfgBatch initialBatch cfgDelay latest sched a b n).current ≤
        (SCA.scanRun cfgBatch initialBatch cfgDelay latest sched a b (n + 1)).current) ∧
    (∀ n k, SCA.windowCount
        (SCA.scanRun cfgBatch initialBatch cfgDelay latest sched a b n).windows k ≤ 1) ∧
    (∀ n k, SCA.windowCount
        (SCA.scanRun cfgBatch initialBatch cfgDelay latest sched a b n).windows k = 1 →
      k < (SCA.scanRun cfgBatch initialBatch cfgDelay latest sched a b n).current) ∧
    (∀ n, (SCA.scanRun cfgBatch initialBatch cfgDelay latest sched a b n).finished →
      ∀ k, a ≤ k → k ≤ b - 1 →
        SCA.windowCount
          (SCA.scanRun cfgBatch initialBatch cfgDelay latest sched a b n).windows k = 1) := by
  refine ⟨SCA.scan_mono cfgBatch initialBatch cfgDelay latest sched a b Hab Hlat Hcfg Hinit,
    ?_, ?_, ?_⟩
  · intro n k
    obtain ⟨-, -, -, -, -, hch⟩ :=
      SCA.scan_invariant cfgBatch initialBatch cfgDelay latest sched a b Hab Hlat Hcfg Hinit n
    rw [hch.count k]
    split_ifs <;> omega
  · intro n k hcnt
    obtain ⟨-, -, -, -, -, hch⟩ :=
      SCA.scan_invariant cfgBatch initialBatch cfgDelay latest sched a b Hab Hlat Hcfg Hinit n
    rw [hch.count k] at hcnt
    split_ifs at hcnt with h
    omega
  · intro n hfin k hak hkb
    obtain ⟨htb, hdone, hac, hcb, hbs, hch⟩ :=
      SCA.scan_invariant cfgBatch initialBatch cfgDelay latest sched a b Hab Hlat Hcfg Hinit n
    have hge : b ≤ (SCA.scanRun cfgBatch initialBatch cfgDelay latest sched a b n).current := by
      rcases (hfin : _ ∨ _) with h | h
      · rw [hdone] at h
        exact absurd h Bool.false_ne_true
      · rw [htb] at h
        exact h
    rw [hch.count k]
    rw [if_pos ⟨hak, by omega⟩]

/-- **C1 (counterexample).** A scan of `[0, 2]` with initial batch size 2
(configured batch size 10, chain tip fixed at 100) where every `getLogs` call
succeeds: the loop exits after fetching the single window `[0, 1]`; block 2
belongs to the requested range but is covered by no successful window, so the
stated claim — every block of `[a, b]` covered exactly once — is false. -/
theorem C1_counterexample :
    (SCA.scanRun 10 2 0 (fun _ => 100) (fun _ => SCA.ScanOutcome.success) 0 2 5).finished ∧
    (SCA.scanRun 10 2 0 (fun _ => 100) (fun _ => SCA.ScanOutcome.success) 0 2 5).windows =
      [(0, 1)] ∧
    SCA.windowCount
      (SCA.scanRun 10 2 0 (fun _ => 100) (fun _ => SCA.ScanOutcome.success) 0 2 5).windows 2
      = 0 := by
  refine ⟨?_, ?_, ?_⟩ <;> decide

/-- Witness for C1 at the concrete scan of `[0, 2]` with batch size 2: the
finished scan covers block 1 exactly once. -/
theorem C1_witness :
    SCA.windowCount
      (SCA.scanRun 10 2 0 (fun _ => 100) (fun _ => SCA.ScanOutcome.success) 0 2 5).windows 1
      = 1 :=
  (C1_scan_cursor_monotone_and_coverage 10 2 0 (fun _ => 100)
      (fun _ => SCA.ScanOutcome.success) 0 2 (by norm_num) (fun _ => by norm_num)
      (by norm_num) (by norm_num)).2.2.2 5 (by decide) 1 (by norm_num) (by norm_num)

/-- **C2 (amended).** During a `get_events` scan started with initial batch
size `initial`, each rate-limit error ("limit exceeded" in the message) sets
the batch size to `max(config.batch_size // 10, batch // 2)`: the floor comes
from the *configured* batch size, not from the caller's initial batch size,
and there is no extra floor at 1.  When `config.batch_size ≥ 10`, after `N ≥ 1`
consecutive rate-limit errors the batch size equals
`max(config.batch_size // 10, initial // 2^N)`.  Each successful window sets
the batch size to `min(initial, batch * 2)` — doubling capped at `initial` —
and throughout the scan the batch size never exceeds
`max(initial, config.batch_size // 10)`; it can exceed `initial` itself
whenever `config.batch_size // 10 > initial`. -/
theorem C2_scan_batch_size_dynamics (cfgBatch initialBatch : ℕ) (cfgDelay : ℚ)
    (latest : ℕ → ℤ) (sched : ℕ → SCA.ScanOutcome) (a b : ℤ) (Hab : a < b)
    (Hlat : ∀ n, b ≤ latest n) (Hcfg : 10 ≤ cfgBatch) (Hinit : 1 ≤ initialBatch) :
    ((∀ n, sched n = SCA.ScanOutcome.rateLimit) → ∀ N, 1 ≤ N →
      (SCA.scanRun cfgBatch initialBatch cfgDelay latest sched a b N).batchSize =
        max (cfgBatch / 10) (initialBatch / 2 ^ N)) ∧
    (∀ n, sched n = SCA.ScanOutcome.success →
      ¬ (SCA.scanRun cfgBatch initialBatch cfgDelay latest sched a b n).finished →
      (SCA.scanRun cfgBatch initialBatch cfgDelay latest sched a b (n + 1)).batchSize =
        min initialBatch
          ((SCA.scanRun cfgBatch initialBatch cfgDelay latest sched a b n).batchSize * 2)) ∧
    (∀ n, (SCA.scanRun cfgBatch initialBatch cfgDelay latest sched a b n).batchSize ≤
        max initialBatch (cfgBatch / 10)) := by
  refine ⟨?_, ?_, ?_⟩
  · intro Hsched N hN
    have := (SCA.scan_rateLimit_run cfgBatch initialBatch cfgDelay latest sched a b Hab
      Hlat Hcfg Hinit Hsched N).2
    rw [this, if_neg (by omega)]
  · intro n hout hnf
    obtain ⟨htb, hdone, hac, hcb, hbs, hch⟩ :=
      SCA.scan_invariant cfgBatch initialBatch cfgDelay latest sched a b Hab.le Hlat Hcfg
        Hinit n
    have hnfin : ¬((SCA.scanRun cfgBatch initialBatch cfgDelay latest sched a b n).done = true ∨
        (SCA.scanRun cfgBatch initialBatch cfgDelay latest sched a b n).toBlock ≤
          (SCA.scanRun cfgBatch initialBatch cfgDelay latest sched a b n).current) := hnf
    have hlt : (SCA.scanRun cfgBatch initialBatch cfgDelay latest sched a b n).current <
        (SCA.scanRun cfgBatch initialBatch cfgDelay latest sched a b n).toBlock := by
      push_neg at hnfin
      omega
    have hlat' : (SCA.scanRun cfgBatch initialBatch cfgDelay latest sched a b n).toBlock ≤
        latest n := by rw [htb]; exact Hlat n
    simp only [SCA.scanRun]
    rw [if_neg hnfin, hout,
      SCA.scanStep_success cfgBatch initialBatch cfgDelay (latest n) _ hlt hbs hlat']
  · intro n
    induction n with
    | zero => exact Nat.le_max_left _ _
    | succ n ih =>
      simp only [SCA.scanRun]
      by_cases hfin : (SCA.scanRun cfgBatch initialBatch cfgDelay latest sched a b n).done = true ∨
          (SCA.scanRun cfgBatch initialBatch cfgDelay latest sched a b n).toBlock ≤
            (SCA.scanRun cfgBatch initialBatch cfgDelay latest sched a b n).current
      · rw [if_pos hfin]
        exact ih
      · rw [if_neg hfin]
        obtain ⟨htb, hdone, hac, hcb, hbs, hch⟩ :=
          SCA.scan_invariant cfgBatch initialBatch cfgDelay latest sched a b Hab.le Hlat
            Hcfg Hinit n
        push_neg at hfin
        obtain ⟨-, hlt⟩ := hfin
        have hlat' : (SCA.scanRun cfgBatch initialBatch cfgDelay latest sched a b n).toBlock ≤
            latest n := by rw [htb]; exact Hlat n
        cases hout : sched n with
        | success =>
          rw [SCA.scanStep_success cfgBatch initialBatch cfgDelay (latest n) _ hlt hbs hlat']
          show min initialBatch
              ((SCA.scanRun cfgBatch initialBatch cfgDelay latest sched a b n).batchSize * 2) ≤
            max initialBatch (cfgBatch / 10)
          omega
        | rateLimit =>
          rw [SCA.scanStep_rateLimit cfgBatch initialBatch cfgDelay (latest n) _ hlt hbs hlat']
          show max (cfgBatch / 10)
              ((SCA.scanRun cfgBatch initialBatch cfgDelay latest sched a b n).batchSize / 2) ≤
            max initialBatch (cfgBatch / 10)
          omega
        | otherError =>
          rw [SCA.scanStep_otherError cfgBatch initialBatch cfgDelay (latest n) _ hlt hbs hlat']
          exact ih

/-- **C2 (counterexample).** With configured batch size 1000 and a scan started
with initial batch size 20, a single rate-limit error sets the batch size to
`max(1000 // 10, 20 // 2) = 100`, which exceeds the caller's initial batch
size 20 — refuting both the stated floor `max(initial / 10, 1)` (which would
give `max(2, 10) = 10`) and the stated bound that the batch size never exceeds
the caller's initial batch size. -/
theorem C2_counterexample :
    (SCA.scanRun 1000 20 0 (fun _ => 100) (fun _ => SCA.ScanOutcome.rateLimit) 0 50 1).batchSize
      = 100 ∧
    ¬ ((SCA.scanRun 1000 20 0 (fun _ => 100) (fun _ => SCA.ScanOutcome.rateLimit) 0 50 1).batchSize
        ≤ 20) := by
  refine ⟨?_, ?_⟩ <;> decide

/-- Witness for C2: with configured batch size 40 and initial batch size 40,
after 2 consecutive rate-limit errors the batch size is
`max(40 // 10, 40 // 2^2) = 10`. -/
theorem C2_witness :
    (SCA.scanRun 40 40 0 (fun _ => 100) (fun _ => SCA.ScanOutcome.rateLimit) 0 50 2).batchSize
      = max (40 / 10) (40 / 2 ^ 2) :=
  (C2_scan_batch_size_dynamics 40 40 0 (fun _ => 100) (fun _ => SCA.ScanOutcome.rateLimit)
    0 50 (by norm_num) (fun _ => by norm_num) (by norm_num) (by norm_num)).1
    (fun _ => rfl) 2 (by norm_num)

/-- **C3 (amended).** When a `getLogs` call fails with an error whose message
does not indicate a rate/size limit, the scanner sleeps a fixed 1 second —
shorter than the 2-second rate-limit cooldown — and retries the same window
without advancing the cursor or changing the batch size.  However, this
retrying is NOT bounded by the outer RetryPolicy: the `except` handler sits
inside the `while` loop and swallows every `getLogs` exception, so nothing
ever propagates to `async_retry`, and under a persistently failing window the
scan loops forever — after any number of iterations the cursor is still at the
start, one 1-second sleep has accrued per iteration, and the loop has not
exited. -/
theorem C3_scan_other_error_retries_unbounded (cfgBatch initialBatch : ℕ) (cfgDelay : ℚ)
    (latest : ℕ → ℤ) (sched : ℕ → SCA.ScanOutcome) (a b : ℤ) (Hab : a < b)
    (Hlat : ∀ n, b ≤ latest n) (Hcfg : 10 ≤ cfgBatch) (Hinit : 1 ≤ initialBatch) :
    (∀ n, sched n = SCA.ScanOutcome.otherError →
      ¬ (SCA.scanRun cfgBatch initialBatch cfgDelay latest sched a b n).finished →
      (SCA.scanRun cfgBatch initialBatch cfgDelay latest sched a b (n + 1)).current =
        (SCA.scanRun cfgBatch initialBatch cfgDelay latest sched a b n).current ∧
      (SCA.scanRun cfgBatch initialBatch cfgDelay latest sched a b (n + 1)).batchSize =
        (SCA.scanRun cfgBatch initialBatch cfgDelay latest sched a b n).batchSize ∧
      (SCA.scanRun cfgBatch initialBatch cfgDelay latest sched a b (n + 1)).sleeps =
        (SCA.scanRun cfgBatch initialBatch cfgDelay latest sched a b n).sleeps ++ [(1 : ℚ)]) ∧
    (∀ n, sched n = SCA.ScanOutcome.rateLimit →
      ¬ (SCA.scanRun cfgBatch initialBatch cfgDelay latest sched a b n).finished →
      (SCA.scanRun cfgBatch initialBatch cfgDelay latest sched a b (n + 1)).sleeps =
        (SCA.scanRun cfgBatch initialBatch cfgDelay latest sched a b n).sleeps ++ [(2 : ℚ)]) ∧
    ((∀ n, sched n = SCA.ScanOutcome.otherError) → ∀ n,
      (SCA.scanRun cfgBatch initialBatch cfgDelay latest sched a b n).current = a ∧
      ¬ (SCA.scanRun cfgBatch initialBatch cfgDelay latest sched a b n).finished) := by
  refine ⟨?_, ?_, ?_⟩
  · intro n hout hnf
    obtain ⟨htb, hdone, hac, hcb, hbs, hch⟩ :=
      SCA.scan_invariant cfgBatch initialBatch cfgDelay latest sched a b Hab.le Hlat Hcfg
        Hinit n
    have hnfin : ¬((SCA.scanRun cfgBatch initialBatch cfgDelay latest sched a b n).done = true ∨
        (SCA.scanRun cfgBatch initialBatch cfgDelay latest sched a b n).toBlock ≤
          (SCA.scanRun cfgBatch initialBatch cfgDelay latest sched a b n).current) := hnf
    have hlt : (SCA.scanRun cfgBatch initialBatch cfgDelay latest sched a b n).current <
        (SCA.scanRun cfgBatch initialBatch cfgDelay latest sched a b n).toBlock := by
      push_neg at hnfin
      omega
    have hlat' : (SCA.scanRun cfgBatch initialBatch cfgDelay latest sched a b n).toBlock ≤
        latest n := by rw [htb]; exact Hlat n
    simp only [SCA.scanRun]
    rw [if_neg hnfin, hout,
      SCA.scanStep_otherError cfgBatch initialBatch cfgDelay (latest n) _ hlt hbs hlat']
    exact ⟨rfl, rfl, rfl⟩
  · intro n hout hnf
    obtain ⟨htb, hdone, hac, hcb, hbs, hch⟩ :=
      SCA.scan_invariant cfgBatch initialBatch cfgDelay latest sched a b Hab.le Hlat Hcfg
        Hinit n
    have hnfin : ¬((SCA.scanRun cfgBatch initialBatch cfgDelay latest sched a b n).done = true ∨
        (SCA.scanRun cfgBatch initialBatch cfgDelay latest sched a b n).toBlock ≤
          (SCA.scanRun cfgBatch initialBatch cfgDelay latest sched a b n).current) := hnf
    have hlt : (SCA.scanRun cfgBatch initialBatch cfgDelay latest sched a b n).current <
        (SCA.scanRun cfgBatch initialBatch cfgDelay latest sched a b n).toBlock := by
      push_neg at hnfin
      omega
    have hlat' : (SCA.scanRun cfgBatch initialBatch cfgDelay latest sched a b n).toBlock ≤
        latest n := by rw [htb]; exact Hlat n
    simp only [SCA.scanRun]
    rw [if_neg hnfin, hout,
      SCA.scanStep_rateLimit cfgBatch initialBatch cfgDelay (latest n) _ hlt hbs hlat']
  · intro Hsched n
    obtain ⟨hcur, -, hnfin⟩ :=
      SCA.scan_otherError_run cfgBatch initialBatch cfgDelay latest sched a b Hab Hlat Hcfg
        Hinit Hsched n
    exact ⟨hcur, hnfin⟩

/-- **C3 (counterexample).** A scan of `[0, 50]` whose every `getLogs` call
fails with a non-rate-limit error: after 10 loop iterations — far more than
the outer RetryPolicy's default 3 attempts — the cursor is still at 0, the
loop has not exited, no exception has propagated, and ten 1-second sleeps have
accrued; the stated claim that the retrying of a persistently failing window
is bounded by the outer RetryPolicy is false. -/
theorem C3_counterexample :
    (SCA.scanRun 10 5 0 (fun _ => 100) (fun _ => SCA.ScanOutcome.otherError) 0 50 10).current
      = 0 ∧
    ¬ (SCA.scanRun 10 5 0 (fun _ => 100) (fun _ => SCA.ScanOutcome.otherError) 0 50 10).finished ∧
    (SCA.scanRun 10 5 0 (fun _ => 100) (fun _ => SCA.ScanOutcome.otherError) 0 50 10).sleeps
      = List.replicate 10 (1 : ℚ) := by
  refine ⟨?_, ?_, ?_⟩ <;> decide

/-- Witness for C3 at the concrete all-failing scan of `[0, 50]`: after 4
iterations the cursor is still at the start and the loop is still running. -/
theorem C3_witness :
    (SCA.scanRun 10 5 0 (fun _ => 100) (fun _ => SCA.ScanOutcome.otherError) 0 50 4).current
      = 0 ∧
    ¬ (SCA.scanRun 10 5 0 (fun _ => 100) (fun _ => SCA.ScanOutcome.otherError) 0 50 4).finished :=
  (C3_scan_other_error_retries_unbounded 10 5 0 (fun _ => 100)
      (fun _ => SCA.ScanOutcome.otherError) 0 50 (by norm_num) (fun _ => by norm_num)
      (by norm_num) (by norm_num)).2.2 (fun _ => rfl) 4

namespace SCA

/-! ## V2 pair info and the empty-reserve case

`src/analyzers/dex/base.py`, `get_pair_info` (lines 181–220): reads reserves
and `token0`, computes
`price = (quote_reserve / 10**quote_decimals) / (token_reserve / 10**token_decimals)`
*before* building the result dict, and only then sets
`has_liquidity = token_reserve > 0 and quote_reserve > 0`.  In Python a zero
`token_reserve` makes the price expression raise `ZeroDivisionError`, which
the surrounding `except` catches, returning `None`; the embedding models that
path as `none`.  `src/analyzers/pool.py`, `_get_pair_info` (lines 111–149)
instead builds the record first and computes the price only inside
`if has_liquidity:`. -/

structure PairInfoBase where
  token_reserve : ℕ
  quote_reserve : ℕ
  price : ℚ
  has_liquidity : Bool
deriving DecidableEq, Repr

def get_pair_info (reserve0 reserve1 : ℕ) (is_token0 : Bool)
    (token_decimals quote_decimals : ℕ) : Option PairInfoBase :=
  let token_reserve := if is_token0 then reserve0 else reserve1
  let quote_reserve := if is_token0 then reserve1 else reserve0
  if token_reserve = 0 then
    none
  else
    some { token_reserve := token_reserve, quote_reserve := quote_reserve,
           price := v2_price token_reserve quote_reserve token_decimals quote_decimals,
           has_liquidity := decide (0 < token_reserve) && decide (0 < quote_reserve) }

structure PairInfoPool where
  token_reserve : ℕ
  quote_reserve : ℕ
  has_liquidity : Bool
  price : Option ℚ
deriving DecidableEq, Repr

def pool_get_pair_info (reserve0 reserve1 : ℕ) (is_token0 : Bool)
    (token_decimals quote_decimals : ℕ) : PairInfoPool :=
  let token_reserve := if is_token0 then reserve0 else reserve1
  let quote_reserve := if is_token0 then reserve1 else reserve0
  let has_liquidity := decide (0 < token_reserve) && decide (0 < quote_reserve)
  { token_reserve := token_reserve, quote_reserve := quote_reserve,
    has_liquidity := has_liquidity,
    price := if has_liquidity then
        some (v2_price token_reserve quote_reserve token_decimals quote_decimals)
      else none }

end SCA

/-- **C6 (amended).** For a discovered V2 pair with an empty reserve,
`pool.py`'s `_get_pair_info` behaves as claimed: the pair record is always
produced, `has_liquidity` is false whenever either reserve is zero, and no
price is computed in that case.  `base.py`'s `get_pair_info`, however,
computes the price before the liquidity check: a zero token reserve raises
`ZeroDivisionError`, which its generic handler catches, so it returns `None`
and no pair record is produced; a zero quote reserve (with a positive token
reserve) produces a record with `has_liquidity` false but with a computed
price of 0 included. -/
theorem C6_empty_reserves_no_liquidity (r0 r1 td qd : ℕ) (t : Bool)
    (hzero : (if t then r0 else r1) = 0 ∨ (if t then r1 else r0) = 0) :
    ((SCA.pool_get_pair_info r0 r1 t td qd).has_liquidity = false ∧
     (SCA.pool_get_pair_info r0 r1 t td qd).price = none) ∧
    ((if t then r0 else r1) = 0 → SCA.get_pair_info r0 r1 t td qd = none) ∧
    ((if t then r0 else r1) ≠ 0 → (if t then r1 else r0) = 0 →
      SCA.get_pair_info r0 r1 t td qd =
        some { token_reserve := (if t then r0 else r1), quote_reserve := 0,
               price := 0, has_liquidity := false }) := by
  refine ⟨?_, ?_, ?_⟩
  · have hliq : (decide (0 < (if t then r0 else r1)) &&
        decide (0 < (if t then r1 else r0))) = false := by
      rcases hzero with h | h <;> simp [h]
    constructor
    · show (decide (0 < (if t then r0 else r1)) &&
          decide (0 < (if t then r1 else r0))) = false
      exact hliq
    · show (if (decide (0 < (if t then r0 else r1)) &&
          decide (0 < (if t then r1 else r0))) = true then _ else none) = none
      rw [hliq]
      simp
  · intro h
    unfold SCA.get_pair_info
    simp [h]
  · intro ht hq
    unfold SCA.get_pair_info
    simp only [if_neg ht]
    have hp : SCA.v2_price (if t then r0 else r1) (if t then r1 else r0) td qd = 0 := by
      rw [hq]
      unfold SCA.v2_price
      simp
    rw [hq] at hp ⊢
    simp only [hp, hq]
    have : (decide (0 < (if t then r0 else r1)) && decide ((0 : ℕ) < 0)) = false := by
      simp
    rw [this]

/-- **C6 (counterexample).** `base.py`'s `get_pair_info` at a pair whose token
reserve is 0 (reserves `(0, 5)`, target token in slot 0, 18/18 decimals):
the division raises, the handler returns `None`, and no pair record with
`has_liquidity = false` is produced — refuting the claim for this routine. -/
theorem C6_counterexample :
    SCA.get_pair_info 0 5 true 18 18 = none := by
  rfl

/-- Witness for C6 at reserves `(0, 5)`, `is_token0 = true`, decimals 18/18. -/
theorem C6_witness :
    ((SCA.pool_get_pair_info 0 5 true 18 18).has_liquidity = false ∧
     (SCA.pool_get_pair_info 0 5 true 18 18).price = none) ∧
    ((0 : ℕ) = 0 → SCA.get_pair_info 0 5 true 18 18 = none) ∧
    ((0 : ℕ) ≠ 0 → (5 : ℕ) = 0 →
      SCA.get_pair_info 0 5 true 18 18 =
        some { token_reserve := 0, quote_reserve := 0, price := 0,
               has_liquidity := false }) := by
  have h := C6_empty_reserves_no_liquidity 0 5 18 18 true (Or.inl (by decide))
  exact ⟨h.1, fun _ => h.2.1 (by decide), fun h0 _ => absurd rfl h0⟩

namespace SCA

/-! ## Pool resolution

`src/handlers/event_handler.py`, `quick_check_contract` (lines 343–457) and
`src/analyzers/dex/base.py`, `check_dex_pools` (lines 96–152).  Addresses are
embedded as `ℕ`, with `0` for the zero address
`0x0000000000000000000000000000000000000000`; each on-chain `.call()` is an
oracle value of type `Except Unit _` (`.error` = the call raised).  Next to
the list of produced liquidity entries, each model has a companion function
returning the trace of oracle calls performed, so that "performs no reads"
is a provable statement rather than an observation. -/

inductive CallTag where
  | getPair (dex q : ℕ)
  | getReserves (dex : ℕ)
  | token0 (dex : ℕ)
  | getPool (dex fee : ℕ)
  | liquidity (dex fee : ℕ)
  | slot0 (dex fee : ℕ)
  | pairInfo (dex q : ℕ)
deriving DecidableEq, Repr

structure V2Oracle where
  getPair : Except Unit ℕ
  getReserves : Except Unit (ℕ × ℕ)
  token0_is_target : Except Unit Bool

structure V3Oracle where
  getPool : ℕ → Except Unit ℕ
  liquidity : ℕ → Except Unit ℕ
  slot0 : ℕ → Except Unit (ℕ × ℤ)

inductive DexEntry where
  | v2 (dex : ℕ) (o : V2Oracle)
  | v3 (dex : ℕ) (o : V3Oracle)

structure PoolEntry where
  dex : ℕ
  pairOrPool : ℕ
  feeTier : Option ℕ
  tokenReserve : Option ℕ
  quoteReserve : Option ℕ
  liquidityAmt : Option ℕ
  sqrtPriceX96 : Option ℕ
deriving DecidableEq, Repr

/-- The V2 branch of `quick_check_contract` for one DEX (lines 371–406):
`getPair`, then — only for a non-zero pair address — `getReserves` and
`token0`, appending one liquidity entry.  Any raised call aborts this DEX
(caught by the per-DEX `except`), producing no entry. -/
def checkV2 (dex : ℕ) (o : V2Oracle) : List PoolEntry :=
  match o.getPair with
  | .error _ => []
  | .ok pair =>
    if pair = 0 then []
    else
      match o.getReserves with
      | .error _ => []
      | .ok rs =>
        match o.token0_is_target with
        | .error _ => []
        | .ok t =>
          [{ dex := dex, pairOrPool := pair, feeTier := none,
             tokenReserve := some (if t then rs.1 else rs.2),
             quoteReserve := some (if t then rs.2 else rs.1),
             liquidityAmt := none, sqrtPriceX96 := none }]

/-- The oracle calls the V2 branch performs. -/
def checkV2Calls (dex : ℕ) (o : V2Oracle) : List CallTag :=
  match o.getPair with
  | .error _ => [.getPair dex 0]
  | .ok pair =>
    if pair = 0 then [.getPair dex 0]
    else
      match o.getReserves with
      | .error _ => [.getPair dex 0, .getReserves dex]
      | .ok _ => [.getPair dex 0, .getReserves dex, .token0 dex]

/-- The V3 fee-tier loop of `quick_check_contract` for one DEX (lines
408–447): per fee, `getPool`; a zero pool address is skipped; a non-zero one
triggers `liquidity` and `slot0` reads and appends an entry.  A raised call
aborts the remaining fee tiers of this DEX (the `try` wraps the whole fee
loop), but entries appended before the failure remain in the results. -/
def checkV3Fees (dex : ℕ) (o : V3Oracle) : List ℕ → List PoolEntry
  | [] => []
  | fee :: rest =>
    match o.getPool fee with
    | .error _ => []
    | .ok pool =>
      if pool = 0 then checkV3Fees dex o rest
      else
        match o.liquidity fee with
        | .error _ => []
        | .ok l =>
          match o.slot0 fee with
          | .error _ => []
          | .ok s =>
            { dex := dex, pairOrPool := pool, feeTier := some fee,
              tokenReserve := none, quoteReserve := none,
              liquidityAmt := some l, sqrtPriceX96 := some s.1 }
              :: checkV3Fees dex o rest

/-- The oracle calls the V3 fee-tier loop performs. -/
def checkV3Calls (dex : ℕ) (o : V3Oracle) : List ℕ → List CallTag
  | [] => []
  | fee :: rest =>
    match o.getPool fee with
    | .error _ => [.getPool dex fee]
    | .ok pool =>
      if pool = 0 then .getPool dex fee :: checkV3Calls dex o rest
      else
        match o.liquidity fee with
        | .error _ => [.getPool dex fee, .liquidity dex fee]
        | .ok _ =>
          match o.slot0 fee with
          | .error _ => [.getPool dex fee, .liquidity dex fee, .slot0 dex fee]
          | .ok _ =>
            .getPool dex fee :: .liquidity dex fee :: .slot0 dex fee ::
              checkV3Calls dex o rest

def checkDex : DexEntry → List PoolEntry
  | .v2 dex o => checkV2 dex o
  | .v3 dex o => checkV3Fees dex o [100, 500, 3000, 10000]

/-- The per-DEX loop of `quick_check_contract` (lines 369–451): each DEX is
checked inside its own `try`/`except`/`continue`, so its entries concatenate
independently of the other DEXes. -/
def quick_check_contract : List DexEntry → List PoolEntry
  | [] => []
  | d :: rest => checkDex d ++ quick_check_contract rest

/-- The quote-token loop of `check_dex_pools` for one V2 DEX (lines 123–147):
per quote token, `getPair`; a non-zero pair sets `found_pools` and calls
`get_pair_info` (which reads reserves and computes the price; it never raises
— its own handler returns `None`).  A raised `getPair` aborts this DEX's
remaining quote tokens (the `try` wraps the token loop) but keeps the `found`
flag accumulated so far. -/
def checkQuotesFound (dex : ℕ) (o : ℕ → Except Unit ℕ) :
    List ℕ → Bool → Bool
  | [], found => found
  | q :: rest, found =>
    match o q with
    | .error _ => found
    | .ok pair =>
      if pair = 0 then checkQuotesFound dex o rest found
      else checkQuotesFound dex o rest true

/-- The oracle/`get_pair_info` calls the quote-token loop performs (the
`found` accumulator does not influence which calls are made). -/
def checkQuotesCalls (dex : ℕ) (o : ℕ → Except Unit ℕ) : List ℕ → List CallTag
  | [] => []
  | q :: rest =>
    match o q with
    | .error _ => [.getPair dex q]
    | .ok pair =>
      if pair = 0 then .getPair dex q :: checkQuotesCalls dex o rest
      else .getPair dex q :: .pairInfo dex q :: checkQuotesCalls dex o rest

theorem checkV2_entries_nonzero (dex : ℕ) (o : V2Oracle) (e : PoolEntry)
    (he : e ∈ checkV2 dex o) : e.pairOrPool ≠ 0 := by
  unfold checkV2 at he
  cases hp : o.getPair with
  | error err => simp only [hp] at he; simp at he
  | ok pair =>
    simp only [hp] at he
    by_cases h0 : pair = 0
    · rw [if_pos h0] at he; simp at he
    · rw [if_neg h0] at he
      cases hr : o.getReserves with
      | error err => simp only [hr] at he; simp at he
      | ok rs =>
        simp only [hr] at he
        cases ht : o.token0_is_target with
        | error err => simp only [ht] at he; simp at he
        | ok t =>
          simp only [ht] at he
          simp at he
          rw [he]
          exact h0

theorem checkV3Fees_entries_nonzero (dex : ℕ) (o : V3Oracle) :
    ∀ (fees : List ℕ) (e : PoolEntry), e ∈ checkV3Fees dex o fees → e.pairOrPool ≠ 0 := by
  intro fees
  induction fees with
  | nil => intro e he; simp [checkV3Fees] at he
  | cons fee rest ih =>
    intro e he
    unfold checkV3Fees at he
    cases hp : o.getPool fee with
    | error err => simp only [hp] at he; simp at he
    | ok pool =>
      simp only [hp] at he
      by_cases h0 : pool = 0
      · rw [if_pos h0] at he
        exact ih e he
      · rw [if_neg h0] at he
        cases hl : o.liquidity fee with
        | error err => simp only [hl] at he; simp at he
        | ok l =>
          simp only [hl] at he
          cases hs : o.slot0 fee with
          | error err => simp only [hs] at he; simp at he
          | ok s =>
            simp only [hs] at he
            rcases List.mem_cons.mp he with he | he
            · rw [he]; exact h0
            · exact ih e he

theorem quick_check_entries_nonzero :
    ∀ (dexes : List DexEntry) (e : PoolEntry),
      e ∈ quick_check_contract dexes → e.pairOrPool ≠ 0 := by
  intro dexes
  induction dexes with
  | nil => intro e he; simp [quick_check_contract] at he
  | cons d rest ih =>
    intro e he
    unfold quick_check_contract at he
    rcases List.mem_append.mp he with h | h
    · cases d with
      | v2 dex o => exact checkV2_entries_nonzero dex o e h
      | v3 dex o => exact checkV3Fees_entries_nonzero dex o _ e h
    · exact ih e h

theorem checkV2_zero (dex : ℕ) (o : V2Oracle) (h0 : o.getPair = .ok 0) :
    checkV2 dex o = [] ∧ checkV2Calls dex o = [CallTag.getPair dex 0] := by
  unfold checkV2 checkV2Calls
  rw [h0]
  simp

theorem checkV2_error (dex : ℕ) (o : V2Oracle) (err : Unit)
    (h0 : o.getPair = .error err) :
    checkV2 dex o = [] ∧ checkV2Calls dex o = [CallTag.getPair dex 0] := by
  unfold checkV2 checkV2Calls
  rw [h0]
  exact ⟨rfl, rfl⟩

theorem checkV3Fees_zero_skip (dex : ℕ) (o : V3Oracle) (fee : ℕ)
    (h0 : o.getPool fee = .ok 0) (fees : List ℕ) :
    (∀ e ∈ checkV3Fees dex o fees, e.feeTier ≠ some fee) ∧
    CallTag.liquidity dex fee ∉ checkV3Calls dex o fees ∧
    CallTag.slot0 dex fee ∉ checkV3Calls dex o fees := by
  induction fees with
  | nil =>
    refine ⟨?_, ?_, ?_⟩ <;> simp [checkV3Fees, checkV3Calls]
  | cons f rest ih =>
    obtain ⟨ihE, ihL, ihS⟩ := ih
    cases hp : o.getPool f with
    | error err =>
      refine ⟨?_, ?_, ?_⟩ <;> simp [checkV3Fees, checkV3Calls, hp]
    | ok pool =>
      by_cases hz : pool = 0
      · simp only [checkV3Fees, checkV3Calls, hp, if_pos hz]
        refine ⟨ihE, ?_, ?_⟩
        · intro hmem
          rcases List.mem_cons.mp hmem with h | h
          · cases h
          · exact ihL h
        · intro hmem
          rcases List.mem_cons.mp hmem with h | h
          · cases h
          · exact ihS h
      · have hne : f ≠ fee := by
          intro hh
          rw [hh, h0] at hp
          injection hp with hpp
          exact hz hpp.symm
        cases hl : o.liquidity f with
        | error err =>
          simp only [checkV3Fees, checkV3Calls, hp, if_neg hz, hl]
          refine ⟨?_, ?_, ?_⟩ <;> simp [hne, hne.symm]
        | ok l =>
          cases hs : o.slot0 f with
          | error err =>
            simp only [checkV3Fees, checkV3Calls, hp, if_neg hz, hl, hs]
            refine ⟨?_, ?_, ?_⟩ <;> simp [hne, hne.symm]
          | ok s =>
            simp only [checkV3Fees, checkV3Calls, hp, if_neg hz, hl, hs]
            refine ⟨?_, ?_, ?_⟩
            · intro e he
              rcases List.mem_cons.mp he with h | h
              · rw [h]
                intro hcontra
                injection hcontra with h2
                exact hne h2
              · exact ihE e h
            · intro hmem
              rcases List.mem_cons.mp hmem with h | h
              · cases h
              · rcases List.mem_cons.mp h with h2 | h2
                · injection h2 with h3 h4
                  exact hne h4.symm
                · rcases List.mem_cons.mp h2 with h3 | h3
                  · cases h3
                  · exact ihL h3
            · intro hmem
              rcases List.mem_cons.mp hmem with h | h
              · cases h
              · rcases List.mem_cons.mp h with h2 | h2
                · cases h2
                · rcases List.mem_cons.mp h2 with h3 | h3
                  · injection h3 with h4 h5
                    exact hne h5.symm
                  · exact ihS h3

theorem checkQuotes_zero_no_pairinfo (dex : ℕ) (o : ℕ → Except Unit ℕ) (q : ℕ)
    (h0 : o q = .ok 0) :
    ∀ (quotes : List ℕ), CallTag.pairInfo dex q ∉ checkQuotesCalls dex o quotes := by
  intro quotes
  induction quotes with
  | nil => simp [checkQuotesCalls]
  | cons p rest ih =>
    cases hp : o p with
    | error err =>
      simp [checkQuotesCalls, hp]
    | ok pair =>
      by_cases hz : pair = 0
      · simp only [checkQuotesCalls, hp, if_pos hz]
        intro hmem
        rcases List.mem_cons.mp hmem with h | h
        · cases h
        · exact ih h
      · have hne : p ≠ q := by
          intro hh
          rw [hh, h0] at hp
          injection hp with hpp
          exact hz hpp.symm
        simp only [checkQuotesCalls, hp, if_neg hz]
        intro hmem
        rcases List.mem_cons.mp hmem with h | h
        · cases h
        · rcases List.mem_cons.mp h with h2 | h2
          · injection h2 with h3 h4
            exact hne h4.symm
          · exact ih h2

end SCA

/-- **C7.** The zero address returned by `getPair`/`getPool` is treated as
"no pair/pool exists", never as an error: every liquidity entry returned by
`quick_check_contract` has a non-zero pair/pool address; a V2 DEX whose
`getPair` returns the zero address contributes no entry and triggers no
`getReserves`/`token0` read; a V3 fee tier whose `getPool` returns the zero
address contributes no entry for that tier and triggers no
`liquidity`/`slot0` read for it; and in `check_dex_pools` a quote asset whose
`getPair` returns the zero address never triggers the `get_pair_info` price
computation. -/
theorem C7_zero_address_skipped (dexes : List SCA.DexEntry)
    (dexV2 dexV3 dexQ q fee : ℕ)
    (o2 : SCA.V2Oracle) (o3 : SCA.V3Oracle) (oq : ℕ → Except Unit ℕ)
    (quotes fees : List ℕ)
    (h2 : o2.getPair = .ok 0) (h3 : o3.getPool fee = .ok 0) (hq : oq q = .ok 0) :
    (∀ e ∈ SCA.quick_check_contract dexes, e.pairOrPool ≠ 0) ∧
    SCA.checkV2 dexV2 o2 = [] ∧
    SCA.checkV2Calls dexV2 o2 = [SCA.CallTag.getPair dexV2 0] ∧
    (∀ e ∈ SCA.checkV3Fees dexV3 o3 fees, e.feeTier ≠ some fee) ∧
    SCA.CallTag.liquidity dexV3 fee ∉ SCA.checkV3Calls dexV3 o3 fees ∧
    SCA.CallTag.slot0 dexV3 fee ∉ SCA.checkV3Calls dexV3 o3 fees ∧
    SCA.CallTag.pairInfo dexQ q ∉ SCA.checkQuotesCalls dexQ oq quotes := by
  obtain ⟨hE, hL, hS⟩ := SCA.checkV3Fees_zero_skip dexV3 o3 fee h3 fees
  obtain ⟨hv2e, hv2c⟩ := SCA.checkV2_zero dexV2 o2 h2
  exact ⟨fun e he => SCA.quick_check_entries_nonzero dexes e he,
    hv2e, hv2c, hE, hL, hS,
    SCA.checkQuotes_zero_no_pairinfo dexQ oq q hq quotes⟩

/-- Witness for C7: one V2 DEX and one V3 DEX whose factory calls all return
the zero address — the returned liquidity list is empty and no reserve,
`slot0` or price read is performed. -/
theorem C7_witness :
    (∀ e ∈ SCA.quick_check_contract
        [SCA.DexEntry.v2 1 ⟨.ok 0, .ok (0, 0), .ok true⟩,
         SCA.DexEntry.v3 2 ⟨fun _ => .ok 0, fun _ => .ok 0, fun _ => .ok (0, 0)⟩],
      e.pairOrPool ≠ 0) ∧
    SCA.checkV2 1 ⟨.ok 0, .ok (0, 0), .ok true⟩ = [] ∧
    SCA.checkV2Calls 1 ⟨.ok 0, .ok (0, 0), .ok true⟩ = [SCA.CallTag.getPair 1 0] ∧
    (∀ e ∈ SCA.checkV3Fees 2 ⟨fun _ => .ok 0, fun _ => .ok 0, fun _ => .ok (0, 0)⟩
        [100, 500, 3000, 10000], e.feeTier ≠ some 100) ∧
    SCA.CallTag.liquidity 2 100 ∉ SCA.checkV3Calls 2
      ⟨fun _ => .ok 0, fun _ => .ok 0, fun _ => .ok (0, 0)⟩ [100, 500, 3000, 10000] ∧
    SCA.CallTag.slot0 2 100 ∉ SCA.checkV3Calls 2
      ⟨fun _ => .ok 0, fun _ => .ok 0, fun _ => .ok (0, 0)⟩ [100, 500, 3000, 10000] ∧
    SCA.CallTag.pairInfo 3 0 ∉ SCA.checkQuotesCalls 3 (fun _ => .ok 0) [0, 1] :=
  C7_zero_address_skipped
    [SCA.DexEntry.v2 1 ⟨.ok 0, .ok (0, 0), .ok true⟩,
     SCA.DexEntry.v3 2 ⟨fun _ => .ok 0, fun _ => .ok 0, fun _ => .ok (0, 0)⟩]
    1 2 3 0 100 ⟨.ok 0, .ok (0, 0), .ok true⟩
    ⟨fun _ => .ok 0, fun _ => .ok 0, fun _ => .ok (0, 0)⟩ (fun _ => .ok 0)
    [0, 1] [100, 500, 3000, 10000] rfl rfl rfl

namespace SCA

/-- A V3 oracle whose fee-100 `getPool` call raises, while fee 500 has a
live pool (address 7, liquidity 1000, `sqrtPriceX96 = 2^96`) and the other
fee tiers have no pool. -/
def o3fail : V3Oracle :=
  { getPool := fun fee => if fee = 100 then .error () else if fee = 500 then .ok 7 else .ok 0,
    liquidity := fun _ => .ok 1000,
    slot0 := fun _ => .ok (2 ^ 96, 0) }

/-- The same oracle with the fee-100 call returning "no pool" instead of
raising. -/
def o3noerr : V3Oracle :=
  { getPool := fun fee => if fee = 100 then .ok 0 else if fee = 500 then .ok 7 else .ok 0,
    liquidity := fun _ => .ok 1000,
    slot0 := fun _ => .ok (2 ^ 96, 0) }

end SCA

/-- **C8 (amended).** A failure while checking one DEX is isolated: the
per-DEX `try`/`except`/`continue` makes each DEX's entries concatenate
independently, so every pool found for the other DEXes in the same run is
still returned, and a V2 DEX whose `getPair` raises simply contributes no
entry.  Within a single DEX, however, `quick_check_contract`'s `try` wraps
the whole fee-tier loop, so a failure on one quote/fee candidate aborts that
DEX's remaining candidates (keeping only entries appended before the
failure). -/
theorem C8_per_dex_failure_isolation (d : SCA.DexEntry) (rest : List SCA.DexEntry) :
    SCA.quick_check_contract (d :: rest) =
      SCA.checkDex d ++ SCA.quick_check_contract rest ∧
    (∀ e ∈ SCA.quick_check_contract rest, e ∈ SCA.quick_check_contract (d :: rest)) ∧
    (∀ (dex : ℕ) (o : SCA.V2Oracle) (err : Unit), o.getPair = .error err →
      SCA.checkV2 dex o = []) := by
  refine ⟨rfl, ?_, ?_⟩
  · intro e he
    show e ∈ SCA.checkDex d ++ SCA.quick_check_contract rest
    exact List.mem_append_right _ he
  · intro dex o err h0
    exact (SCA.checkV2_error dex o err h0).1

/-- **C8 (counterexample).** A single V3 DEX whose fee-100 `getPool` call
raises while its fee-500 candidate is a perfectly valid pool: the scan of the
remaining candidates of that DEX is aborted, the valid fee-500 pool is not
returned, and the result list is empty — refuting the stated claim that a
failing quote/fee candidate is skipped with the remaining candidates of the
same run still checked and their valid pools still returned.  With the same
oracle minus the exception, the fee-500 pool is returned. -/
theorem C8_counterexample :
    SCA.o3fail.getPool 500 = .ok 7 ∧
    SCA.quick_check_contract [SCA.DexEntry.v3 1 SCA.o3fail] = [] ∧
    SCA.quick_check_contract [SCA.DexEntry.v3 1 SCA.o3noerr] =
      [{ dex := 1, pairOrPool := 7, feeTier := some 500,
         tokenReserve := none, quoteReserve := none,
         liquidityAmt := some 1000, sqrtPriceX96 := some (2 ^ 96) }] := by
  refine ⟨rfl, rfl, ?_⟩
  decide

namespace SCA

/-! ## OwnershipHistory assembler

`src/handlers/event_handler.py`, `check_ownership` (lines 304–341): reads the
current owner, collects the `OwnershipTransferred` events, sorts them in
place by `blockNumber` (`ownership_transfers.sort(key=lambda x: x['blockNumber'])`,
embedded as an insertion sort — any stable comparison sort yields the same
guarantees used here), then for each event fetches the transaction (for its
sender) and the block (for its timestamp), building the detail list in order;
the loop has no inner `try`, so the first failed fetch aborts the whole
assembly (the outer `except` logs and re-raises).
`is_renounced = (current_owner == '0x0000…0')`; addresses are embedded as
`ℕ` with `0` the zero address. -/

structure OEvent where
  blockNumber : ℕ
  txHash : ℕ
  previousOwner : ℕ
  newOwner : ℕ
deriving DecidableEq, Repr

structure TransferDetail where
  block_number : ℕ
  tx_hash : ℕ
  from_address : ℕ
  previous_owner : ℕ
  new_owner : ℕ
  timestamp : ℕ
deriving DecidableEq, Repr

structure OwnershipResult where
  current_owner : ℕ
  is_renounced : Bool
  transfer_history : List TransferDetail
deriving DecidableEq, Repr

def evLE (e1 e2 : OEvent) : Prop := e1.blockNumber ≤ e2.blockNumber

instance : DecidableRel evLE := fun a b => Nat.decLe a.blockNumber b.blockNumber

instance : IsTotal OEvent evLE := ⟨fun a b => Nat.le_total a.blockNumber b.blockNumber⟩

instance : IsTrans OEvent evLE := ⟨fun _ _ _ h1 h2 => Nat.le_trans h1 h2⟩

/-- Lines 322–331: `get_transaction` for the sender, `get_block` for the
timestamp, one detail record per event. -/
def fetchDetail (getTx getBlock : ℕ → Except Unit ℕ) (e : OEvent) :
    Except Unit TransferDetail :=
  match getTx e.txHash with
  | .error err => .error err
  | .ok sender =>
    match getBlock e.blockNumber with
    | .error err => .error err
    | .ok ts =>
      .ok { block_number := e.blockNumber, tx_hash := e.txHash, from_address := sender,
            previous_owner := e.previousOwner, new_owner := e.newOwner, timestamp := ts }

/-- The `for event in ownership_transfers:` loop: details are appended in
order; the first raised fetch aborts the loop and the exception propagates. -/
def fetchDetails (getTx getBlock : ℕ → Except Unit ℕ) :
    List OEvent → Except Unit (List TransferDetail)
  | [] => .ok []
  | e :: rest =>
    match fetchDetail getTx getBlock e with
    | .error err => .error err
    | .ok d =>
      match fetchDetails getTx getBlock rest with
      | .error err => .error err
      | .ok ds => .ok (d :: ds)

def check_ownership (owner : ℕ) (events : List OEvent)
    (getTx getBlock : ℕ → Except Unit ℕ) : Except Unit OwnershipResult :=
  match fetchDetails getTx getBlock (List.insertionSort evLE events) with
  | .error err => .error err
  | .ok details =>
    .ok { current_owner := owner, is_renounced := decide (owner = 0),
          transfer_history := details }

theorem fetchDetail_block (getTx getBlock : ℕ → Except Unit ℕ) (e : OEvent)
    (d : TransferDetail) (h : fetchDetail getTx getBlock e = .ok d) :
    d.block_number = e.blockNumber := by
  unfold fetchDetail at h
  cases ht : getTx e.txHash with
  | error err => rw [ht] at h; cases h
  | ok sender =>
    rw [ht] at h
    cases hb : getBlock e.blockNumber with
    | error err => rw [hb] at h; cases h
    | ok ts =>
      rw [hb] at h
      injection h with h2
      rw [← h2]

theorem fetchDetails_blocks (getTx getBlock : ℕ → Except Unit ℕ) :
    ∀ (l : List OEvent) (ds : List TransferDetail),
      fetchDetails getTx getBlock l = .ok ds →
      ds.map (fun d => d.block_number) = l.map (fun e => e.blockNumber) := by
  intro l
  induction l with
  | nil =>
    intro ds h
    unfold fetchDetails at h
    injection h with h2
    rw [← h2]
    rfl
  | cons e rest ih =>
    intro ds h
    unfold fetchDetails at h
    cases hd : fetchDetail getTx getBlock e with
    | error err => rw [hd] at h; cases h
    | ok d =>
      rw [hd] at h
      cases hr : fetchDetails getTx getBlock rest with
      | error err => rw [hr] at h; cases h
      | ok ds2 =>
        rw [hr] at h
        injection h with h2
        rw [← h2]
        simp only [List.map_cons]
        rw [fetchDetail_block getTx getBlock e d hd, ih ds2 hr]

theorem fetchDetail_fails (getTx getBlock : ℕ → Except Unit ℕ) (e : OEvent)
    (hf : (getTx e.txHash).isOk = false ∨ (getBlock e.blockNumber).isOk = false) :
    ∀ d, fetchDetail getTx getBlock e ≠ .ok d := by
  intro d h
  unfold fetchDetail at h
  cases ht : getTx e.txHash with
  | error err => rw [ht] at h; cases h
  | ok sender =>
    rw [ht] at h
    cases hb : getBlock e.blockNumber with
    | error err => rw [hb] at h; cases h
    | ok ts =>
      rcases hf with hf | hf
      · rw [ht] at hf
        simp [Except.isOk, Except.toBool] at hf
      · rw [hb] at hf
        simp [Except.isOk, Except.toBool] at hf

theorem fetchDetails_fails (getTx getBlock : ℕ → Except Unit ℕ) :
    ∀ (l : List OEvent), (∃ e ∈ l, ∀ d, fetchDetail getTx getBlock e ≠ .ok d) →
      ∀ ds, fetchDetails getTx getBlock l ≠ .ok ds := by
  intro l
  induction l with
  | nil =>
    rintro ⟨e, he, -⟩
    simp at he
  | cons a rest ih =>
    rintro ⟨e, he, hfail⟩ ds h
    unfold fetchDetails at h
    rcases List.mem_cons.mp he with rfl | he2
    · cases hd : fetchDetail getTx getBlock e with
      | error err => rw [hd] at h; cases h
      | ok d => exact hfail d hd
    · cases hd : fetchDetail getTx getBlock a with
      | error err => rw [hd] at h; cases h
      | ok d =>
        rw [hd] at h
        cases hr : fetchDetails getTx getBlock rest with
        | error err => rw [hr] at h; cases h
        | ok ds2 => exact ih ⟨e, he2, hfail⟩ ds2 hr

end SCA

/-- **C9.** `check_ownership` returns the transfer history sorted by block
number ascending regardless of the order the scan produced the events; its
`is_renounced` field is true iff the current owner read from the contract is
the all-zero address (and `current_owner` is reported unchanged); and a
failure fetching the transaction or the block of any single event makes the
whole assembly fail — no partial history is ever returned. -/
theorem C9_check_ownership_properties (owner : ℕ) (events : List SCA.OEvent)
    (getTx getBlock : ℕ → Except Unit ℕ) :
    (∀ r, SCA.check_ownership owner events getTx getBlock = .ok r →
      List.Pairwise (fun d1 d2 => d1.block_number ≤ d2.block_number)
        r.transfer_history ∧
      r.current_owner = owner ∧
      (r.is_renounced = true ↔ owner = 0)) ∧
    ((∃ e ∈ events, (getTx e.txHash).isOk = false ∨
        (getBlock e.blockNumber).isOk = false) →
      ∀ r, SCA.check_ownership owner events getTx getBlock ≠ .ok r) := by
  constructor
  · intro r h
    unfold SCA.check_ownership at h
    cases hf : SCA.fetchDetails getTx getBlock (List.insertionSort SCA.evLE events) with
    | error err => rw [hf] at h; cases h
    | ok details =>
      rw [hf] at h
      injection h with h2
      subst h2
      refine ⟨?_, rfl, by simp⟩
      have hsorted : List.Pairwise SCA.evLE (List.insertionSort SCA.evLE events) :=
        List.sorted_insertionSort SCA.evLE events
      have hkeys : List.Pairwise (fun a b : ℕ => a ≤ b)
          ((List.insertionSort SCA.evLE events).map (fun e => e.blockNumber)) :=
        (List.pairwise_map).mpr hsorted
      have hblocks := SCA.fetchDetails_blocks getTx getBlock _ details hf
      rw [← hblocks] at hkeys
      exact (List.pairwise_map).mp hkeys
  · intro hex r h
    obtain ⟨e, he, hfe⟩ := hex
    unfold SCA.check_ownership at h
    cases hf : SCA.fetchDetails getTx getBlock (List.insertionSort SCA.evLE events) with
    | error err => rw [hf] at h; cases h
    | ok details =>
      refine SCA.fetchDetails_fails getTx getBlock _ ⟨e, ?_, ?_⟩ details hf
      · exact ((List.perm_insertionSort SCA.evLE events).mem_iff).mpr he
      · exact SCA.fetchDetail_fails getTx getBlock e hfe

/-- Witness for C9: owner renounced (zero address) and three synthetic
`OwnershipTransferred` events at blocks 100, 50, 200 given out of order; the
assembled history is sorted and its block sequence is `[50, 100, 200]`. -/
theorem C9_witness :
    ∃ r, SCA.check_ownership 0
        [⟨100, 1, 5, 6⟩, ⟨50, 2, 4, 5⟩, ⟨200, 3, 6, 7⟩]
        (fun h => .ok h) (fun b => .ok b) = .ok r ∧
      List.Pairwise (fun d1 d2 => d1.block_number ≤ d2.block_number)
        r.transfer_history ∧
      r.transfer_history.map (fun d => d.block_number) = [50, 100, 200] ∧
      r.is_renounced = true := by
  have heq : SCA.check_ownership 0
      [⟨100, 1, 5, 6⟩, ⟨50, 2, 4, 5⟩, ⟨200, 3, 6, 7⟩]
      (fun h => .ok h) (fun b => .ok b) =
      .ok { current_owner := 0, is_renounced := true,
            transfer_history :=
              [⟨50, 2, 2, 4, 5, 50⟩, ⟨100, 1, 1, 5, 6, 100⟩, ⟨200, 3, 3, 6, 7, 200⟩] } := by
    rfl
  refine ⟨_, heq,
    ((C9_check_ownership_properties 0
        [⟨100, 1, 5, 6⟩, ⟨50, 2, 4, 5⟩, ⟨200, 3, 6, 7⟩]
        (fun h => .ok h) (fun b => .ok b)).1 _ heq).1, by decide, by decide⟩

/-- **C10.** For every `retries ≥ 1` the `async_retry` wrapper invokes the wrapped
coroutine at most `retries` times, sleeps `delay * backoff^(k-1)` before the
k-th retry, and re-raises the final attempt's exception unchanged when every
attempt fails; for `retries = 0` it invokes the wrapped coroutine exactly once
outside any exception handling, so the first outcome (success or failure)
propagates immediately with no retry and no sleep. -/
theorem C10_async_retry_behaviour (retries : ℕ) (delay backoff : ℚ)
    (outcomes : ℕ → Except Unit ℕ) (hr : 1 ≤ retries) :
    (SCA.async_retry retries delay backoff outcomes).2.1 ≤ retries ∧
    ((SCA.async_retry retries delay backoff outcomes).2.2 =
      (List.range ((SCA.async_retry retries delay backoff outcomes).2.1 - 1)).map
        (fun i => delay * backoff ^ i)) ∧
    ((∀ k, k < retries → (outcomes k).isOk = false) →
      SCA.async_retry retries delay backoff outcomes =
        (outcomes (retries - 1), retries,
          (List.range (retries - 1)).map (fun i => delay * backoff ^ i))) ∧
    (SCA.async_retry 0 delay backoff outcomes = (outcomes 0, 1, [])) := by
  refine ⟨?_, ?_, ?_, ?_⟩
  · exact SCA.retryAux_calls_le outcomes backoff retries 0 delay hr
  · exact SCA.retryAux_sleeps_shape outcomes backoff retries 0 delay
  · intro hfail
    have := SCA.retryAux_all_fail outcomes backoff retries 0 delay hr
      (fun k hk => by simpa using hfail k hk)
    simpa [SCA.async_retry] using this
  · rfl

/-- Witness for C10 at `retries = 3, delay = 1, backoff = 2`, with an oracle
that always fails. -/
theorem C10_witness :
    (SCA.async_retry 3 1 2 (fun _ => .error ())).2.1 ≤ 3 ∧
    ((SCA.async_retry 3 1 2 (fun _ => .error ())).2.2 =
      (List.range ((SCA.async_retry 3 1 2 (fun _ => .error ())).2.1 - 1)).map
        (fun i => 1 * 2 ^ i)) ∧
    ((∀ k, k < 3 → ((fun (_ : ℕ) => (Except.error () : Except Unit ℕ)) k).isOk = false) →
      SCA.async_retry 3 1 2 (fun _ => .error ()) =
        (.error (), 3, (List.range 2).map (fun i => 1 * 2 ^ i))) ∧
    (SCA.async_retry 0 1 2 (fun _ => .error ()) = (.error (), 1, [])) :=
  C10_async_retry_behaviour 3 1 2 (fun _ => .error ()) (by decide)

/-- **C4.** For every V2 pair with positive reserves, the computed price equals
`(reserveQuote / 10^decimalsQuote) / (reserveToken / 10^decimalsToken)`, and the
computation is scale-invariant: multiplying both reserves by the same positive
constant leaves the price unchanged (exactly, in the rational model of the
float arithmetic). -/
theorem C4_v2_price_spec_and_scale_invariant
    (rt rq dt dq c : ℕ) (hrt : 0 < rt) (hrq : 0 < rq) (hc : 0 < c) :
    SCA.v2_price rt rq dt dq = SCA.spec_v2_price rt rq dt dq ∧
    SCA.v2_price (c * rt) (c * rq) dt dq = SCA.v2_price rt rq dt dq := by
  constructor
  · rfl
  · unfold SCA.v2_price
    have hc' : (c : ℚ) ≠ 0 := Nat.cast_ne_zero.mpr hc.ne'
    have hrt' : (rt : ℚ) ≠ 0 := Nat.cast_ne_zero.mpr hrt.ne'
    have h10t : ((10 : ℚ) ^ dt) ≠ 0 := pow_ne_zero _ (by norm_num)
    have h10q : ((10 : ℚ) ^ dq) ≠ 0 := pow_ne_zero _ (by norm_num)
    push_cast
    field_simp
    ring

/-- Witness for C4 at `rt = 2, rq = 3, dt = 1, dq = 2, c = 5`. -/
theorem C4_witness :
    SCA.v2_price 2 3 1 2 = SCA.spec_v2_price 2 3 1 2 ∧
    SCA.v2_price (5 * 2) (5 * 3) 1 2 = SCA.v2_price 2 3 1 2 :=
  C4_v2_price_spec_and_scale_invariant 2 3 1 2 5 (by decide) (by decide) (by decide)

/-- **C5.** For every V3 pool the computed price equals
`(sqrtPriceX96^2 / 2^192) * 10^decimalsToken / 10^decimalsQuote`; in particular,
for `sqrtPriceX96 = 2^96` and equal token and quote decimals the computed price
equals exactly 1. -/
theorem C5_v3_price_spec_and_unit (s dt dq d : ℕ) :
    SCA.v3_adjusted_price s dt dq = SCA.spec_v3_price s dt dq ∧
    SCA.v3_adjusted_price (2 ^ 96) d d = 1 := by
  constructor
  · rfl
  · unfold SCA.v3_adjusted_price
    have h10 : ((10 : ℚ) ^ d) ≠ 0 := pow_ne_zero _ (by norm_num)
    have h2 : ((2 : ℚ) ^ 192) ≠ 0 := pow_ne_zero _ (by norm_num)
    have key : (((2 : ℕ) ^ 96 : ℕ) : ℚ) ^ 2 = 2 ^ 192 := by norm_num
    rw [key, div_self h2, one_mul, div_self h10]
